import Mathlib

/-!
Verification of the endgame-simulations time-stepping engine.

This file gives a shallow embedding of the two source modules
`endgame_simulations/simulations.py` (the Stepper, `GenericSimulation`) and
`endgame_simulations/endgame_simulation.py` (the Regime Scheduler,
`GenericEndgame`), and proves/refutes the frozen behavioural claims about them.

Modelling conventions:
* Python floats are modelled as `ℚ`.  All times in the claims are exact
  decimals, so rational arithmetic reproduces the source computations exactly.
* The opaque simulation state (from the external `common.State` contract) is
  `SimState P D`: the `current_time` field, the installed parameter set
  (type parameter `P`) and an opaque domain part (type parameter `D`).  The
  external advance operation is an arbitrary function producing the new domain
  part; per the spec's state contract, `current_time` is mutated only by the
  Stepper and the parameter set is replaced only by `reset_params`.
* Exceptions become the `Except PyErr` monad.  The source's `while` loops are
  embedded with an explicitly computed fuel (`fuelFor`, `schedFuel`); lemmas
  below prove the fuel suffices, i.e. that the embedded function computes the
  limit of the source loop.  A loop that would not terminate in the source
  (non-positive `delta_time`) is mapped to the distinguished error value
  `PyErr.divergence`, marking a call that never returns.
* In-place mutation becomes state passing; each run returns, next to the final
  state, the trace of states passed to the external advance operation, and the
  Scheduler's run additionally returns the list of parameter installations
  (`reset_current_params` calls) it performed, each tagged with the
  `current_time` at which it happened.
-/

/-- Python exceptions raised (or divergence exhibited) by the embedded code. -/
inductive PyErr where
  /-- `raise ValueError(msg)` -/
  | valueError (msg : String)
  /-- a failed `assert` statement -/
  | assertionError (msg : String)
  /-- `next()` on an exhausted generator, as in `GenericEndgame.__init__` -/
  | stopIteration
  /-- float modulo by zero, as in `current_time % sampling_interval` -/
  | zeroDivisionError
  /-- out-of-range list indexing (proved unreachable where it appears) -/
  | indexError
  /-- marks a call whose source `while` loop never terminates -/
  | divergence
deriving DecidableEq

/-- The simulation state of the external `common.State` contract:
`current_time`, the installed parameter set, and the opaque domain part. -/
structure SimState (P D : Type) where
  current_time : ℚ
  params : P
  domain : D
deriving DecidableEq

/-
`Rat.add`, `Rat.mul`, `Rat.inv` and `Rat.sub` are `@[irreducible]` in the
library, which blocks elaborator-side evaluation of the executable embedding
on concrete inputs; restore the default reducibility so that `decide` and
`rfl` can evaluate the definitions below (the kernel is unaffected).
-/
attribute [local semireducible] Rat.add Rat.mul Rat.inv Rat.sub

deriving instance DecidableEq for Except

/-- Python's `abs` on floats, on `ℚ`. -/
def ratAbs (q : ℚ) : ℚ := if q < 0 then -q else q

/-- Python's `%` on floats (`x - m * floor (x / m)`, sign of the divisor).
Only evaluated by the source when the divisor is nonzero (a zero divisor
raises `ZeroDivisionError` before this is computed). -/
def pymod (x m : ℚ) : ℚ := x - m * ((x / m).floor : ℤ)

/-- Fuel sufficient for the source loop `while t <= e: t += dt` with `0 < dt`:
one more than `⌊(e - t) / dt⌋`. -/
def fuelFor (dt t e : ℚ) : ℕ := (((e - t) / dt).floor).toNat + 1

theorem ratFloor_eq_intFloor (q : ℚ) : q.floor = ⌊q⌋ := rfl

/-- One iteration of the body of `GenericSimulation.run`'s loop:
`current_time += delta_time; advance_state(state)`.  Returns the new state and
the state that was passed to the advance operation (its argument). -/
def stepOnce {P D : Type} (dt : ℚ) (adv : SimState P D → D) (s : SimState P D) :
    SimState P D × SimState P D :=
  let arg : SimState P D := ⟨s.current_time + dt, s.params, s.domain⟩
  (⟨arg.current_time, arg.params, adv arg⟩, arg)

/-- The loop `while current_time <= end_time` of `GenericSimulation.run`,
with explicit fuel.  Returns the final state and the trace of states passed to
the advance operation. -/
def runLoop {P D : Type} (dt : ℚ) (adv : SimState P D → D) (e : ℚ) :
    ℕ → SimState P D → SimState P D × List (SimState P D)
  | 0, s => (s, [])
  | n + 1, s =>
    if s.current_time ≤ e then
      let p := stepOnce dt adv s
      let r := runLoop dt adv e n p.1
      (r.1, p.2 :: r.2)
    else (s, [])

/-- `GenericSimulation.run`'s loop run to completion (the fuel is proved
sufficient below). -/
def runWhole {P D : Type} (dt : ℚ) (adv : SimState P D → D) (e : ℚ)
    (s : SimState P D) : SimState P D × List (SimState P D) :=
  runLoop dt adv e (fuelFor dt s.current_time e) s

/-- `GenericSimulation.run(end_time=e)` from `simulations.py`: rejects
`end_time` before `current_time`, then steps in increments of `delta_time`
while `current_time <= end_time`.  The source calls `advance_state(self.state)`
without the debug flag, so the advance operation is a plain `adv` here. -/
def GenericSimulation.run {P D : Type} (dt : ℚ) (adv : SimState P D → D) (e : ℚ)
    (s : SimState P D) : Except PyErr (SimState P D × List (SimState P D)) :=
  if e < s.current_time then .error (.valueError "End time after start")
  else if dt ≤ 0 then .error .divergence
  else .ok (runWhole dt adv e s)

theorem runLoop_of_gt {P D : Type} (dt : ℚ) (adv : SimState P D → D) (e : ℚ)
    (n : ℕ) (s : SimState P D) (h : e < s.current_time) :
    runLoop dt adv e n s = (s, []) := by
  cases n with
  | zero => rfl
  | succ n => simp [runLoop, not_le.mpr h]

theorem fuelFor_spec (dt t e : ℚ) (hdt : 0 < dt) :
    e < t + (fuelFor dt t e : ℚ) * dt := by
  unfold fuelFor
  rw [ratFloor_eq_intFloor]
  rcases le_or_lt t e with h | h
  · have h0 : (0 : ℚ) ≤ (e - t) / dt := div_nonneg (by linarith) hdt.le
    have hfl : (0 : ℤ) ≤ ⌊(e - t) / dt⌋ := Int.floor_nonneg.mpr h0
    have : ((e - t) / dt) < (⌊(e - t) / dt⌋ : ℚ) + 1 := Int.lt_floor_add_one _
    have htn : ((⌊(e - t) / dt⌋.toNat : ℕ) : ℚ) = (⌊(e - t) / dt⌋ : ℚ) := by
      exact_mod_cast Int.toNat_of_nonneg hfl
    have hcast : ((⌊(e - t) / dt⌋.toNat + 1 : ℕ) : ℚ) = (⌊(e - t) / dt⌋ : ℚ) + 1 := by
      push_cast
      rw [htn]
    rw [hcast]
    have := (div_lt_iff₀ hdt).mp this
    linarith
  · have hpos : (0 : ℚ) < ((⌊(e - t) / dt⌋.toNat + 1 : ℕ) : ℚ) * dt := by
      apply mul_pos _ hdt
      positivity
    linarith

theorem runLoop_congr {P D : Type} (dt : ℚ) (adv : SimState P D → D) (e : ℚ)
    (hdt : 0 < dt) :
    ∀ (n₁ : ℕ) (s : SimState P D) (n₂ : ℕ),
      e < s.current_time + (n₁ : ℚ) * dt → e < s.current_time + (n₂ : ℚ) * dt →
      runLoop dt adv e n₁ s = runLoop dt adv e n₂ s := by
  intro n₁
  induction n₁ with
  | zero =>
    intro s n₂ h1 _
    simp only [Nat.cast_zero, zero_mul, add_zero] at h1
    rw [runLoop_of_gt dt adv e _ s h1, runLoop_of_gt dt adv e _ s h1]
  | succ m ih =>
    intro s n₂ h1 h2
    by_cases hg : s.current_time ≤ e
    · -- the guard holds, so n₂ must be positive as well
      cases n₂ with
      | zero =>
        simp only [Nat.cast_zero, zero_mul, add_zero] at h2
        exact absurd h2 (not_lt.mpr hg)
      | succ k =>
        simp only [runLoop, if_pos hg]
        have harg : ((stepOnce dt adv s).1).current_time = s.current_time + dt := rfl
        have h1' : e < (stepOnce dt adv s).1.current_time + (m : ℚ) * dt := by
          rw [harg]; push_cast at h1 ⊢; linarith
        have h2' : e < (stepOnce dt adv s).1.current_time + (k : ℚ) * dt := by
          rw [harg]; push_cast at h2 ⊢; linarith
        rw [ih (stepOnce dt adv s).1 k h1' h2']
    · rw [runLoop_of_gt dt adv e _ s (not_le.mp hg),
        runLoop_of_gt dt adv e _ s (not_le.mp hg)]

/-- Unfolding the completed loop when the guard is false. -/
theorem runWhole_of_gt {P D : Type} (dt : ℚ) (adv : SimState P D → D) (e : ℚ)
    (s : SimState P D) (h : e < s.current_time) :
    runWhole dt adv e s = (s, []) :=
  runLoop_of_gt dt adv e _ s h

/-- Unfolding the completed loop when the guard is true: one step, then the
completed loop from the stepped state. -/
theorem runWhole_step {P D : Type} (dt : ℚ) (adv : SimState P D → D) (e : ℚ)
    (s : SimState P D) (hdt : 0 < dt) (hg : s.current_time ≤ e) :
    runWhole dt adv e s =
      ((runWhole dt adv e (stepOnce dt adv s).1).1,
        (stepOnce dt adv s).2 :: (runWhole dt adv e (stepOnce dt adv s).1).2) := by
  have hfuel : 1 ≤ fuelFor dt s.current_time e := Nat.le_add_left 1 _
  obtain ⟨k, hk⟩ : ∃ k, fuelFor dt s.current_time e = k + 1 :=
    ⟨fuelFor dt s.current_time e - 1, by omega⟩
  unfold runWhole
  rw [hk]
  simp only [runLoop, if_pos hg]
  have harg : ((stepOnce dt adv s).1).current_time = s.current_time + dt := rfl
  have hspec := fuelFor_spec dt s.current_time e hdt
  rw [hk] at hspec
  have h1 : e < (stepOnce dt adv s).1.current_time + (k : ℚ) * dt := by
    rw [harg]; push_cast at hspec ⊢; linarith
  have h2 : e < (stepOnce dt adv s).1.current_time +
      (fuelFor dt (stepOnce dt adv s).1.current_time e : ℚ) * dt :=
    fuelFor_spec dt _ e hdt
  rw [runLoop_congr dt adv e hdt k (stepOnce dt adv s).1
    (fuelFor dt (stepOnce dt adv s).1.current_time e) h1 h2]
  rfl

theorem stepOnce_fst_time {P D : Type} (dt : ℚ) (adv : SimState P D → D)
    (s : SimState P D) : (stepOnce dt adv s).1.current_time = s.current_time + dt := rfl

theorem stepOnce_fst_params {P D : Type} (dt : ℚ) (adv : SimState P D → D)
    (s : SimState P D) : (stepOnce dt adv s).1.params = s.params := rfl

/-- Final-state characterisation of the completed Stepper loop: the final time
is the start time plus one `delta_time` per advance invocation, it exceeds
`end_time` by at most one `delta_time`, and the installed parameter set is
untouched. -/
theorem runWhole_final {P D : Type} (dt : ℚ) (adv : SimState P D → D) (e : ℚ)
    (hdt : 0 < dt) :
    ∀ (n : ℕ) (s : SimState P D),
      e < s.current_time + (n : ℚ) * dt → s.current_time ≤ e + dt →
      (runWhole dt adv e s).1.current_time
          = s.current_time + ((runWhole dt adv e s).2.length : ℚ) * dt ∧
      e < (runWhole dt adv e s).1.current_time ∧
      (runWhole dt adv e s).1.current_time ≤ e + dt ∧
      (runWhole dt adv e s).1.params = s.params := by
  intro n
  induction n with
  | zero =>
    intro s h1 h2
    simp only [Nat.cast_zero, zero_mul, add_zero] at h1
    rw [runWhole_of_gt dt adv e s h1]
    refine ⟨by simp, h1, h2, rfl⟩
  | succ m ih =>
    intro s h1 h2
    by_cases hg : s.current_time ≤ e
    · have hstep := runWhole_step dt adv e s hdt hg
      set s' := (stepOnce dt adv s).1 with hs'
      have ht' : s'.current_time = s.current_time + dt := rfl
      have hp' : s'.params = s.params := rfl
      have h1' : e < s'.current_time + (m : ℚ) * dt := by
        rw [ht']; push_cast at h1 ⊢; linarith
      have h2' : s'.current_time ≤ e + dt := by rw [ht']; linarith
      obtain ⟨ihA, ihB, ihC, ihD⟩ := ih s' h1' h2'
      rw [hstep]
      refine ⟨?_, ihB, ihC, by rw [hp'] at ihD; exact ihD⟩
      simp only [List.length_cons]
      rw [ihA, ht']
      push_cast
      ring
    · push_neg at hg
      rw [runWhole_of_gt dt adv e s hg]
      refine ⟨by simp, hg, h2, rfl⟩

/-- Trace characterisation of the completed Stepper loop: the `i`-th advance
invocation receives the state at time `start + (i+1) * delta_time` (the time is
incremented before the advance operation runs) with the original parameters. -/
theorem runWhole_trace {P D : Type} (dt : ℚ) (adv : SimState P D → D) (e : ℚ)
    (hdt : 0 < dt) :
    ∀ (n : ℕ) (s : SimState P D),
      e < s.current_time + (n : ℚ) * dt →
      ∀ (i : ℕ) (v : SimState P D), (runWhole dt adv e s).2.get? i = some v →
        v.current_time = s.current_time + ((i : ℚ) + 1) * dt ∧
        v.params = s.params := by
  intro n
  induction n with
  | zero =>
    intro s h1 i v h
    simp only [Nat.cast_zero, zero_mul, add_zero] at h1
    rw [runWhole_of_gt dt adv e s h1] at h
    simp at h
  | succ m ih =>
    intro s h1 i v h
    by_cases hg : s.current_time ≤ e
    · have hstep := runWhole_step dt adv e s hdt hg
      set s' := (stepOnce dt adv s).1 with hs'
      have ht' : s'.current_time = s.current_time + dt := rfl
      have h1' : e < s'.current_time + (m : ℚ) * dt := by
        rw [ht']; push_cast at h1 ⊢; linarith
      rw [hstep] at h
      cases i with
      | zero =>
        simp only [List.get?_cons_zero, Option.some.injEq] at h
        subst h
        exact ⟨by simp [stepOnce], rfl⟩
      | succ j =>
        simp only [List.get?_cons_succ] at h
        have := ih s' h1' j v h
        refine ⟨?_, this.2⟩
        rw [this.1, ht']
        push_cast
        ring
    · push_neg at hg
      rw [runWhole_of_gt dt adv e s hg] at h
      simp at h

/-- Splitting the completed Stepper loop at an intermediate bound `m ≤ e`:
provided the first loop does not overshoot past `e`, running to `e` equals
running to `m` and then continuing to `e`, with concatenated advance traces. -/
theorem runWhole_concat {P D : Type} (dt : ℚ) (adv : SimState P D → D)
    (m e : ℚ) (hdt : 0 < dt) (hme : m ≤ e) :
    ∀ (n : ℕ) (s : SimState P D), m < s.current_time + (n : ℚ) * dt →
      (runWhole dt adv m s).1.current_time ≤ e →
      runWhole dt adv e s =
        ((runWhole dt adv e (runWhole dt adv m s).1).1,
         (runWhole dt adv m s).2 ++ (runWhole dt adv e (runWhole dt adv m s).1).2) := by
  intro n
  induction n with
  | zero =>
    intro s h1 _
    simp only [Nat.cast_zero, zero_mul, add_zero] at h1
    rw [runWhole_of_gt dt adv m s h1]
    simp
  | succ k ih =>
    intro s h1 hno
    by_cases hg : s.current_time ≤ m
    · have hstepm := runWhole_step dt adv m s hdt hg
      have hge : s.current_time ≤ e := le_trans hg hme
      have hstepe := runWhole_step dt adv e s hdt hge
      set s' := (stepOnce dt adv s).1 with hs'
      have ht' : s'.current_time = s.current_time + dt := rfl
      have h1' : m < s'.current_time + (k : ℚ) * dt := by
        rw [ht']; push_cast at h1 ⊢; linarith
      have hno' : (runWhole dt adv m s').1.current_time ≤ e := by
        rw [hstepm] at hno; exact hno
      have := ih s' h1' hno'
      rw [hstepe, hstepm]
      simp only [List.cons_append]
      rw [this]
    · push_neg at hg
      rw [runWhole_of_gt dt adv m s hg]
      simp

/-- Python truthiness of the `sampling_interval` argument (`None` and `0.0`
are falsy). -/
def truthyInterval : Option ℚ → Bool
  | none => false
  | some v => if v = 0 then false else true

/-- Python truthiness of the `sampling_years` argument (`None` and the empty
list are falsy). -/
def truthyYears : Option (List ℚ) → Bool
  | none => false
  | some l => if l.isEmpty then false else true

/-- Python's `sorted` on a list of floats (ascending). -/
def pySorted (l : List ℚ) : List ℚ := l.insertionSort (· ≤ ·)

/-- The loop of `GenericSimulation.iter_run`, with explicit fuel.  Arguments
after the configuration: fuel, the `sampling_years_idx` cursor, the state.
Returns the yielded samples, the final state and the trace of states passed to
the advance operation.  `sy` is the (already sorted) sampling-years list, `[]`
when absent; `si` is never `some 0` here (that case raises
`ZeroDivisionError` before the loop's effects, handled by the caller). -/
def iterLoop {P D : Type} (dt : ℚ) (adv : Bool → SimState P D → D) (debug : Bool)
    (e : ℚ) (si : Option ℚ) (sy : List ℚ) :
    ℕ → ℕ → SimState P D →
      List (SimState P D) × SimState P D × List (SimState P D)
  | 0, _, s => ([], s, [])
  | n + 1, yidx, s =>
    if s.current_time ≤ e then
      let onInterval : Bool :=
        match si with
        | none => false
        | some v => decide (pymod s.current_time v < dt)
      let onYear : Bool :=
        (!sy.isEmpty) && (decide (yidx < sy.length)) &&
          (decide (ratAbs (s.current_time - sy.getD yidx 0) < dt))
      let yielded : List (SimState P D) := if onInterval || onYear then [s] else []
      let yidx2 := if onYear then yidx + 1 else yidx
      let arg : SimState P D := ⟨s.current_time + dt, s.params, s.domain⟩
      let s2 : SimState P D := ⟨arg.current_time, arg.params, adv debug arg⟩
      let r := iterLoop dt adv debug e si sy n yidx2 s2
      (yielded ++ r.1, r.2.1, arg :: r.2.2)
    else ([], s, [])

/-- `GenericSimulation.iter_run(end_time, sampling_interval, sampling_years)`
from `simulations.py`: rejects `end_time` before `current_time`, rejects both
sampling arguments being (truthy and) supplied, sorts `sampling_years`, then
steps like `run` while also yielding the state at sample points.  Here the
advance operation receives the simulation's debug flag, as in the source. -/
def GenericSimulation.iter_run {P D : Type} (dt : ℚ) (adv : Bool → SimState P D → D)
    (debug : Bool) (e : ℚ) (si : Option ℚ) (sy : Option (List ℚ))
    (s : SimState P D) :
    Except PyErr (List (SimState P D) × SimState P D × List (SimState P D)) :=
  if e < s.current_time then .error (.valueError "End time after start")
  else if truthyInterval si && truthyYears sy then
    .error (.valueError "You must provide sampling_interval, sampling_years or neither")
  else if si = some 0 then .error .zeroDivisionError
  else if dt ≤ 0 then .error .divergence
  else
    let sy2 := match sy with | none => [] | some l => pySorted l
    .ok (iterLoop dt adv debug e si sy2 (fuelFor dt s.current_time e) 0 s)

/-- With sampling off (`sampling_interval` absent and `sampling_years` empty),
the `iter_run` loop yields nothing and advances time exactly like the `run`
loop, invoking the advance operation the same number of times.  The advance
functions of the two loops may differ (the source passes the debug flag only
in `iter_run`), so only the time-driven observations coincide. -/
theorem iterLoop_no_sampling {P D : Type} (dt : ℚ) (adv : Bool → SimState P D → D)
    (advR : SimState P D → D) (debug : Bool) (e : ℚ) :
    ∀ (n : ℕ) (yidx : ℕ) (s₁ s₂ : SimState P D),
      s₁.current_time = s₂.current_time →
      (iterLoop dt adv debug e none [] n yidx s₁).1 = [] ∧
      (iterLoop dt adv debug e none [] n yidx s₁).2.1.current_time
        = (runLoop dt advR e n s₂).1.current_time ∧
      (iterLoop dt adv debug e none [] n yidx s₁).2.2.length
        = (runLoop dt advR e n s₂).2.length := by
  intro n
  induction n with
  | zero => intro yidx s₁ s₂ ht; exact ⟨rfl, ht, rfl⟩
  | succ m ih =>
    intro yidx s₁ s₂ ht
    by_cases hg : s₁.current_time ≤ e
    · have hg₂ : s₂.current_time ≤ e := ht ▸ hg
      simp only [iterLoop, runLoop, if_pos hg, if_pos hg₂, List.length_cons]
      have := ih yidx
        ⟨s₁.current_time + dt, s₁.params,
          adv debug ⟨s₁.current_time + dt, s₁.params, s₁.domain⟩⟩
        (stepOnce dt advR s₂).1 (by simp [stepOnce, ht])
      exact ⟨this.1, this.2.1, congrArg (fun n => n + 1) this.2.2⟩
    · have hg₂ : ¬ s₂.current_time ≤ e := ht ▸ hg
      simp only [iterLoop, runLoop, if_neg hg, if_neg hg₂]
      exact ⟨trivial, ht, trivial⟩

/-- State of the Regime Scheduler (`GenericEndgame`): the simulation owned via
`self.simulation` (whose state is the `SimState`), the converted regime
timeline `_param_set` and the pointer `next_params_index`. -/
structure SchedState (P D : Type) where
  simulation : SimState P D
  param_set : List (ℚ × P)
  next_params_index : ℕ
deriving DecidableEq

/-- `next(i for i, value in enumerate(time_params) if value > start)` from
`GenericEndgame.__init__` and `reset_endgame`: the index of the first entry
exceeding `start`; `none` models the `StopIteration` of an exhausted
generator. -/
def findNext (times : List ℚ) (start : ℚ) : Option ℕ :=
  match times with
  | [] => none
  | v :: rest => if start < v then some 0 else (findNext rest start).map (· + 1)

/-- `GenericEndgame.__init__` in the fresh-construction mode (`endgame`
supplied): the external `convert_endgame` has already produced `param_set`;
`mkDomain` models the external `state_class.from_params` building the opaque
domain part of the fresh state. -/
def GenericEndgame.init {P D : Type} (param_set : List (ℚ × P)) (start_time : ℚ)
    (mkDomain : P → ℚ → D) : Except PyErr (SchedState P D) :=
  if param_set.length = 0 then
    .error (.assertionError "start_time is not None and (len(param_set) > 0)")
  else
    match findNext (param_set.map Prod.fst) start_time with
    | none => .error .stopIteration
    | some idx =>
      if idx < 1 then .error (.valueError "Invalid next param index")
      else
        match param_set.get? (idx - 1) with
        | some tp =>
          .ok ⟨⟨start_time, tp.2, mkDomain tp.2 start_time⟩, param_set, idx⟩
        | none => .error .indexError

/-- `GenericEndgame.reset_endgame`: re-derives the timeline pointer relative
to the current `state.current_time` and installs the newly selected parameter
set via `reset_current_params` (which, per the external State contract,
replaces the parameters without altering other state fields). -/
def GenericEndgame.reset_endgame {P D : Type} (new_param_set : List (ℚ × P))
    (st : SchedState P D) : Except PyErr (SchedState P D) :=
  if new_param_set.length = 0 then
    .error (.assertionError "len(param_set) > 0")
  else
    match findNext (new_param_set.map Prod.fst) st.simulation.current_time with
    | none => .error .stopIteration
    | some idx =>
      if idx < 1 then .error (.valueError "Invalid next param index")
      else
        match new_param_set.get? (idx - 1) with
        | some tp =>
          .ok ⟨⟨st.simulation.current_time, tp.2, st.simulation.domain⟩,
            new_param_set, idx⟩
        | none => .error .indexError

/-- Modelled from the spec: the Scheduler Checkpoint, the persisted tuple of
the serialized simulation state, the serialized regime timeline and the
integer `next_params_index` (`GenericEndgame.save` writes exactly these three
to the HDF5 container; the byte-level serialization performed by the external
`to_hdf5` / `json.dumps` pair and undone by `from_hdf5` / `parse_obj` is
missing from the sources and is modelled as the identity, per the spec's
serialize/deserialize State contract). -/
structure Checkpoint (P D : Type) where
  simulation : SimState P D
  param_set : List (ℚ × P)
  next_params_index : ℕ
deriving DecidableEq

/-- `GenericEndgame.save`: persists the simulation state, the timeline and
`next_params_index`; no in-memory state is modified. -/
def GenericEndgame.save {P D : Type} (st : SchedState P D) : Checkpoint P D :=
  ⟨st.simulation, st.param_set, st.next_params_index⟩

/-- `GenericEndgame.__init__` in the restore mode (`input` supplied) /
`GenericEndgame.restore`: rebuilds the simulation from the embedded state and
reads back `param_set` and `next_params_index` without re-deriving the
pointer. -/
def GenericEndgame.restore {P D : Type} (c : Checkpoint P D) : SchedState P D :=
  ⟨c.simulation, c.param_set, c.next_params_index⟩

/-- One pass of the peek-and-install prologue of `GenericEndgame.run`'s loop
body: tentatively `checkpoint_time = end_time`; when a regime is left, peek it
and increment `next_params_index`; when its activation time precedes
`end_time`, shrink the checkpoint to it and install its parameter set.
Returns `(checkpoint_time, updated scheduler state, installations performed)`;
an installation is recorded with the `current_time` at which it happened. -/
def schedStep {P D : Type} (e : ℚ) (st : SchedState P D) :
    ℚ × SchedState P D × List (ℚ × P) :=
  if h : st.next_params_index < st.param_set.length then
    let tp := st.param_set.get ⟨st.next_params_index, h⟩
    if tp.1 < e then
      (tp.1,
        ⟨⟨st.simulation.current_time, tp.2, st.simulation.domain⟩,
          st.param_set, st.next_params_index + 1⟩,
        [(st.simulation.current_time, tp.2)])
    else (e, ⟨st.simulation, st.param_set, st.next_params_index + 1⟩, [])
  else (e, st, [])

/-- The loop `while current_time < end_time` of `GenericEndgame.run`, with
explicit fuel: peek/install, then delegate the segment to
`GenericSimulation.run`.  Returns the final scheduler state and the list of
parameter installations performed, each tagged with the `current_time` at
installation. -/
def schedLoop {P D : Type} (dt : ℚ) (adv : SimState P D → D) (e : ℚ) :
    ℕ → SchedState P D → Except PyErr (SchedState P D × List (ℚ × P))
  | 0, st => .ok (st, [])
  | n + 1, st =>
    if st.simulation.current_time < e then
      let pk := schedStep e st
      match GenericSimulation.run dt adv pk.1 pk.2.1.simulation with
      | .error err => .error err
      | .ok r =>
        match schedLoop dt adv e n
            ⟨r.1, pk.2.1.param_set, pk.2.1.next_params_index⟩ with
        | .error err => .error err
        | .ok r2 => .ok (r2.1, pk.2.2 ++ r2.2)
    else .ok (st, [])

/-- Fuel sufficient for the Scheduler's segment loop: each iteration either
consumes a regime (at most `len - next_params_index` of them remain) or is the
final segment. -/
def schedFuel {P D : Type} (st : SchedState P D) : ℕ :=
  st.param_set.length - st.next_params_index + 1

/-- `GenericEndgame.run(end_time=e)` from `endgame_simulation.py` (the fuel is
proved sufficient below). -/
def GenericEndgame.run {P D : Type} (dt : ℚ) (adv : SimState P D → D) (e : ℚ)
    (st : SchedState P D) : Except PyErr (SchedState P D × List (ℚ × P)) :=
  schedLoop dt adv e (schedFuel st) st

theorem schedLoop_stop {P D : Type} (dt : ℚ) (adv : SimState P D → D) (e : ℚ)
    (n : ℕ) (st : SchedState P D) (h : ¬ st.simulation.current_time < e) :
    schedLoop dt adv e n st = .ok (st, []) := by
  cases n with
  | zero => rfl
  | succ n => simp [schedLoop, h]

theorem schedStep_of_ge {P D : Type} (e : ℚ) (st : SchedState P D)
    (h : ¬ st.next_params_index < st.param_set.length) :
    schedStep e st = (e, st, []) := by
  simp [schedStep, h]

theorem schedStep_param_set {P D : Type} (e : ℚ) (st : SchedState P D) :
    (schedStep e st).2.1.param_set = st.param_set := by
  unfold schedStep
  split
  · dsimp only
    split <;> rfl
  · rfl

theorem schedStep_idx_of_lt {P D : Type} (e : ℚ) (st : SchedState P D)
    (h : st.next_params_index < st.param_set.length) :
    (schedStep e st).2.1.next_params_index = st.next_params_index + 1 := by
  unfold schedStep
  rw [dif_pos h]
  dsimp only
  split <;> rfl

theorem run_ok_of_le {P D : Type} (dt : ℚ) (adv : SimState P D → D) (e : ℚ)
    (s : SimState P D) (hdt : 0 < dt) (h : ¬ e < s.current_time) :
    GenericSimulation.run dt adv e s = .ok (runWhole dt adv e s) := by
  simp [GenericSimulation.run, h, not_le.mpr hdt]

/-- The completed Stepper loop always ends strictly past `end_time`. -/
theorem runWhole_gt {P D : Type} (dt : ℚ) (adv : SimState P D → D) (e : ℚ)
    (hdt : 0 < dt) (s : SimState P D) :
    e < (runWhole dt adv e s).1.current_time := by
  rcases lt_or_le e s.current_time with h | h
  · rw [runWhole_of_gt dt adv e s h]
    exact h
  · exact (runWhole_final dt adv e hdt (fuelFor dt s.current_time e) s
      (fuelFor_spec dt s.current_time e hdt) (by linarith)).2.1

theorem schedFuel_pos {P D : Type} (st : SchedState P D) : 1 ≤ schedFuel st :=
  Nat.le_add_left 1 _


/-- Termination of the Scheduler's segment loop: any fuel at least
`schedFuel` computes the same result, i.e. the source's `while` loop settles
within `schedFuel` iterations (each iteration either consumes a regime or is
the final segment). -/
theorem schedLoop_congr {P D : Type} (dt : ℚ) (adv : SimState P D → D) (e : ℚ)
    (hdt : 0 < dt) :
    ∀ (n₁ : ℕ) (st : SchedState P D) (n₂ : ℕ),
      schedFuel st ≤ n₁ → schedFuel st ≤ n₂ →
      schedLoop dt adv e n₁ st = schedLoop dt adv e n₂ st := by
  intro n₁
  induction n₁ with
  | zero =>
    intro st n₂ h1 _
    exact absurd (le_trans (schedFuel_pos st) h1) (by omega)
  | succ m ih =>
    intro st n₂ h1 h2
    obtain ⟨k, rfl⟩ : ∃ k, n₂ = k + 1 :=
      ⟨n₂ - 1, by have := le_trans (schedFuel_pos st) h2; omega⟩
    by_cases hguard : st.simulation.current_time < e
    · cases hrun : GenericSimulation.run dt adv (schedStep e st).1
          (schedStep e st).2.1.simulation with
      | error err => simp only [schedLoop, if_pos hguard, hrun]
      | ok r =>
        simp only [schedLoop, if_pos hguard, hrun]
        by_cases hidx : st.next_params_index < st.param_set.length
        · have h1' : st.param_set.length - st.next_params_index + 1 ≤ m + 1 := h1
          have h2' : st.param_set.length - st.next_params_index + 1 ≤ k + 1 := h2
          have hfm : schedFuel (⟨r.1, (schedStep e st).2.1.param_set,
              (schedStep e st).2.1.next_params_index⟩ : SchedState P D) ≤ m := by
            unfold schedFuel
            simp only [schedStep_param_set, schedStep_idx_of_lt e st hidx]
            omega
          have hfk : schedFuel (⟨r.1, (schedStep e st).2.1.param_set,
              (schedStep e st).2.1.next_params_index⟩ : SchedState P D) ≤ k := by
            unfold schedFuel
            simp only [schedStep_param_set, schedStep_idx_of_lt e st hidx]
            omega
          rw [ih _ k hfm hfk]
        · have hst : schedStep e st = (e, st, []) := schedStep_of_ge e st hidx
          rw [hst] at hrun
          dsimp only at hrun
          have hr := hrun
          rw [run_ok_of_le dt adv e st.simulation hdt (lt_asymm hguard)] at hr
          injection hr with hr
          have hgt : e < r.1.current_time := by
            rw [← hr]
            exact runWhole_gt dt adv e hdt st.simulation
          rw [schedLoop_stop dt adv e m _ (not_lt.mpr hgt.le),
            schedLoop_stop dt adv e k _ (not_lt.mpr hgt.le)]
    · rw [schedLoop_stop dt adv e _ st hguard, schedLoop_stop dt adv e _ st hguard]

/-- With sufficient fuel, a successful Scheduler run ends with the loop guard
false: the final `current_time` is at least `end_time`. -/
theorem schedLoop_final {P D : Type} (dt : ℚ) (adv : SimState P D → D) (e : ℚ)
    (hdt : 0 < dt) :
    ∀ (n : ℕ) (st stF : SchedState P D) (l : List (ℚ × P)),
      schedFuel st ≤ n → schedLoop dt adv e n st = .ok (stF, l) →
      e ≤ stF.simulation.current_time := by
  intro n
  induction n with
  | zero =>
    intro st stF l h1 _
    exact absurd (le_trans (schedFuel_pos st) h1) (by omega)
  | succ m ih =>
    intro st stF l h1 hres
    by_cases hguard : st.simulation.current_time < e
    · cases hrun : GenericSimulation.run dt adv (schedStep e st).1
          (schedStep e st).2.1.simulation with
      | error err =>
        simp only [schedLoop, if_pos hguard, hrun] at hres
        exact absurd hres (by simp)
      | ok r =>
        simp only [schedLoop, if_pos hguard, hrun] at hres
        by_cases hidx : st.next_params_index < st.param_set.length
        · have h1' : st.param_set.length - st.next_params_index + 1 ≤ m + 1 := h1
          have hfm : schedFuel (⟨r.1, (schedStep e st).2.1.param_set,
              (schedStep e st).2.1.next_params_index⟩ : SchedState P D) ≤ m := by
            unfold schedFuel
            simp only [schedStep_param_set, schedStep_idx_of_lt e st hidx]
            omega
          cases hrec : schedLoop dt adv e m ⟨r.1, (schedStep e st).2.1.param_set,
              (schedStep e st).2.1.next_params_index⟩ with
          | error err =>
            simp only [hrec] at hres
            exact absurd hres (by simp)
          | ok r2 =>
            simp only [hrec] at hres
            simp only [Except.ok.injEq, Prod.mk.injEq] at hres
            have hle := ih _ r2.1 r2.2 hfm (by exact hrec)
            rw [← hres.1]
            exact hle
        · have hst : schedStep e st = (e, st, []) := schedStep_of_ge e st hidx
          rw [hst] at hrun hres
          dsimp only at hrun hres
          have hr := hrun
          rw [run_ok_of_le dt adv e st.simulation hdt (lt_asymm hguard)] at hr
          injection hr with hr
          have hgt : e < r.1.current_time := by
            rw [← hr]
            exact runWhole_gt dt adv e hdt st.simulation
          simp only [schedLoop_stop dt adv e m
            (⟨r.1, st.param_set, st.next_params_index⟩ : SchedState P D)
            (not_lt.mpr hgt.le)] at hres
          simp only [Except.ok.injEq, Prod.mk.injEq] at hres
          rw [← hres.1]
          exact hgt.le
    · rw [schedLoop_stop dt adv e _ st hguard] at hres
      simp only [Except.ok.injEq, Prod.mk.injEq] at hres
      rw [← hres.1]
      exact le_of_not_lt hguard

/-- The Scheduler-Checkpoint invariant stated by the spec: the previous
regime's activation time is at or before the state's `current_time`, which is
strictly before the next regime's activation time; or the pointer is one past
the end of the timeline ("no regimes remain"). -/
def schedInvariant {P D : Type} (st : SchedState P D) : Prop :=
  st.next_params_index = st.param_set.length ∨
  (1 ≤ st.next_params_index ∧ st.next_params_index < st.param_set.length ∧
    (st.param_set.map Prod.fst).getD (st.next_params_index - 1) 0
      ≤ st.simulation.current_time ∧
    st.simulation.current_time
      < (st.param_set.map Prod.fst).getD st.next_params_index 0)

instance {P D : Type} (st : SchedState P D) : Decidable (schedInvariant st) := by
  unfold schedInvariant
  exact inferInstance

/-- What a successful `findNext` guarantees: the found index is in range, its
entry exceeds `start`, and every earlier entry is at most `start`. -/
theorem findNext_spec (times : List ℚ) (start : ℚ) :
    ∀ i, findNext times start = some i →
      i < times.length ∧ start < times.getD i 0 ∧
      ∀ j, j < i → times.getD j 0 ≤ start := by
  induction times with
  | nil => intro i h; exact absurd h (by simp [findNext])
  | cons v rest ih =>
    intro i h
    unfold findNext at h
    by_cases hv : start < v
    · rw [if_pos hv] at h
      simp only [Option.some.injEq] at h
      subst h
      exact ⟨by simp, by simpa using hv, fun j hj => absurd hj (by omega)⟩
    · rw [if_neg hv] at h
      cases hf : findNext rest start with
      | none => rw [hf] at h; exact absurd h (by simp)
      | some i' =>
        rw [hf] at h
        simp only [Option.map_some', Option.some.injEq] at h
        subst h
        obtain ⟨hlen, hgt, hle⟩ := ih i' hf
        refine ⟨by simpa using hlen, by simpa using hgt, ?_⟩
        intro j hj
        cases j with
        | zero => simpa using le_of_not_lt hv
        | succ j' =>
          have := hle j' (by omega)
          simpa using this

/-- A successful construction establishes the Scheduler-Checkpoint invariant:
`findNext` picks the first regime past `start_time`, so the one before it
activates at or before `start_time`. -/
theorem init_establishes_invariant {P D : Type} (param_set : List (ℚ × P))
    (start_time : ℚ) (mkDomain : P → ℚ → D) (st' : SchedState P D)
    (h : GenericEndgame.init param_set start_time mkDomain = .ok st') :
    schedInvariant st' := by
  unfold GenericEndgame.init at h
  by_cases h0 : param_set.length = 0
  · rw [if_pos h0] at h
    exact absurd h (by simp)
  rw [if_neg h0] at h
  cases hf : findNext (param_set.map Prod.fst) start_time with
  | none =>
    simp only [hf] at h
    exact absurd h (by simp)
  | some idx =>
    simp only [hf] at h
    by_cases hi : idx < 1
    · rw [if_pos hi] at h
      exact absurd h (by simp)
    rw [if_neg hi] at h
    cases hg : param_set.get? (idx - 1) with
    | none =>
      simp only [hg] at h
      exact absurd h (by simp)
    | some tp =>
      simp only [hg, Except.ok.injEq] at h
      subst h
      obtain ⟨hlen, hgt, hle⟩ := findNext_spec _ _ idx hf
      right
      show 1 ≤ idx ∧ idx < param_set.length ∧
        (param_set.map Prod.fst).getD (idx - 1) 0 ≤ start_time ∧
        start_time < (param_set.map Prod.fst).getD idx 0
      exact ⟨by omega, by simpa using hlen, hle (idx - 1) (by omega), hgt⟩

/-- A successful `reset_endgame` establishes the Scheduler-Checkpoint
invariant relative to the current `state.current_time`. -/
theorem reset_establishes_invariant {P D : Type} (new_param_set : List (ℚ × P))
    (st st' : SchedState P D)
    (h : GenericEndgame.reset_endgame new_param_set st = .ok st') :
    schedInvariant st' := by
  unfold GenericEndgame.reset_endgame at h
  by_cases h0 : new_param_set.length = 0
  · rw [if_pos h0] at h
    exact absurd h (by simp)
  rw [if_neg h0] at h
  cases hf : findNext (new_param_set.map Prod.fst) st.simulation.current_time with
  | none =>
    simp only [hf] at h
    exact absurd h (by simp)
  | some idx =>
    simp only [hf] at h
    by_cases hi : idx < 1
    · rw [if_pos hi] at h
      exact absurd h (by simp)
    rw [if_neg hi] at h
    cases hg : new_param_set.get? (idx - 1) with
    | none =>
      simp only [hg] at h
      exact absurd h (by simp)
    | some tp =>
      simp only [hg, Except.ok.injEq] at h
      subst h
      obtain ⟨hlen, hgt, hle⟩ := findNext_spec _ _ idx hf
      right
      show 1 ≤ idx ∧ idx < new_param_set.length ∧
        (new_param_set.map Prod.fst).getD (idx - 1) 0
          ≤ st.simulation.current_time ∧
        st.simulation.current_time < (new_param_set.map Prod.fst).getD idx 0
      exact ⟨by omega, by simpa using hlen, hle (idx - 1) (by omega), hgt⟩

/-- Trivial advance operation on a unit domain, for concrete executions of
`GenericSimulation.run` / `GenericEndgame.run`. -/
def advU : SimState ℕ Unit → Unit := fun _ => ()

/-- Trivial advance operation taking the debug flag, for concrete executions
of `GenericSimulation.iter_run`. -/
def advB : Bool → SimState ℕ Unit → Unit := fun _ _ => ()

/-- The timeline `[(0.0, A), (2.0, B), (5.0, C)]` of the spec's
regime-switching scenario, with parameter sets coded `A = 0`, `B = 1`,
`C = 2`. -/
def psetABC : List (ℚ × ℕ) := [(0, 0), (2, 1), (5, 2)]

/-- Trivial domain factory (`state_class.from_params`) for concrete
executions. -/
def mkU : ℕ → ℚ → Unit := fun _ _ => ()

/-- The Scheduler state produced by constructing with timeline `psetABC` and
`start_time = 1`: `next_params_index = 1`, parameter set `A` installed. -/
def stABC : SchedState ℕ Unit := ⟨⟨1, 0, ()⟩, psetABC, 1⟩

/-- C1: counterexample to the claim as stated.  With timeline
`[(0, A), (2, B), (5, C)]` (coded `A = 0`, `B = 1`, `C = 2`),
`start_time = 1`, `delta_time = 1/2`, the call `run(end_time = 10)` installs
`B` at `current_time = 1` — strictly before `current_time` reaches `2.0` —
because the loop installs a peeked regime's parameters before running the
segment that ends at its activation time.  The installation trace is
`[(1, B), (5/2, C)]`, and `1 < 2`. -/
theorem C1_counterexample :
    GenericEndgame.run (1/2) advU 10 stABC
      = .ok (⟨⟨21/2, 2, ()⟩, psetABC, 3⟩, [(1, 1), (5/2, 2)]) ∧
    (1 : ℚ) < 2 :=
  ⟨by decide, by decide⟩

/-- C1 (amended): construction with timeline `[(0, A), (2, B), (5, C)]` and
`start_time = 1` selects `next_regime_index = 1` with parameter set `A`
installed; a subsequent `run(end_time = 10)` with `delta_time = 1/2` installs
`B` at the start of the segment that runs up to `2.0` (i.e. already at
`current_time = 1`) and `C` at the start of the segment that runs up to `5.0`
(at `current_time = 5/2`, the first grid point past `2.0`) — each regime's
parameters are installed one segment early, when the segment towards its
activation time begins, not when `current_time` reaches it.  The run ends at
`current_time = 21/2` with every regime consumed and `C` installed. -/
theorem C1_regime_switching :
    GenericEndgame.init psetABC 1 mkU = .ok stABC ∧
    stABC.next_params_index = 1 ∧ stABC.simulation.params = 0 ∧
    GenericEndgame.run (1/2) advU 10 stABC
      = .ok (⟨⟨21/2, 2, ()⟩, psetABC, 3⟩, [(1, 1), (5/2, 2)]) :=
  ⟨by decide, rfl, rfl, by decide⟩

/-- C2: counterexample to the claim as stated.  From the freshly constructed
Scheduler (`current_time = 1`, `next_regime_index = 1` over
`[(0, A), (2, B), (5, C)]`), the reachable state after `run(end_time = 6/5)`
with `delta_time = 1/2` has `next_regime_index = 2` but `current_time = 3/2 <
2.0 = timeline[1].activation_time`: the loop increments the pointer when it
peeks a regime even when `activation_time >= end_time`, so the invariant
fails on a reachable state. -/
theorem C2_counterexample :
    GenericEndgame.run (1/2) advU (6/5) stABC
      = .ok (⟨⟨3/2, 0, ()⟩, psetABC, 2⟩, []) ∧
    ¬ schedInvariant (⟨⟨3/2, 0, ()⟩, psetABC, 2⟩ : SchedState ℕ Unit) :=
  ⟨by decide, by decide⟩

/-- C2 (amended): the invariant holds on the states produced by construction
and by `reset_timeline` (both select the first regime past the reference
time, so the previous one activates at or before it); it is *not* preserved
by arbitrary `run` calls (see the counterexample). -/
theorem C2_invariant_establishment {P D : Type} (pset new_pset : List (ℚ × P))
    (start_time : ℚ) (mkDomain : P → ℚ → D) (st st₁ st₂ : SchedState P D) :
    (GenericEndgame.init pset start_time mkDomain = .ok st₁ →
      schedInvariant st₁) ∧
    (GenericEndgame.reset_endgame new_pset st = .ok st₂ →
      schedInvariant st₂) :=
  ⟨init_establishes_invariant pset start_time mkDomain st₁,
   reset_establishes_invariant new_pset st st₂⟩

theorem C2_witness :
    schedInvariant stABC ∧
    schedInvariant (⟨⟨3/2, 0, ()⟩, psetABC, 1⟩ : SchedState ℕ Unit) :=
  ⟨(C2_invariant_establishment psetABC psetABC 1 mkU stABC stABC
      (⟨⟨3/2, 0, ()⟩, psetABC, 1⟩ : SchedState ℕ Unit)).1 (by decide),
   (C2_invariant_establishment psetABC psetABC 1 mkU
      (⟨⟨3/2, 0, ()⟩, psetABC, 2⟩ : SchedState ℕ Unit) stABC
      (⟨⟨3/2, 0, ()⟩, psetABC, 1⟩ : SchedState ℕ Unit)).2 (by decide)⟩

/-- C3: counterexample to the claim as stated.  The Scheduler's
`run(end_time)` with `end_time < current_time` does *not* raise: its loop
guard `current_time < end_time` is simply false, so the call returns
silently with the state unchanged (here `end_time = 1/2 < 1 =
current_time`). -/
theorem C3_counterexample :
    GenericEndgame.run (1/2) advU (1/2) stABC = .ok (stABC, []) := by decide

/-- C3 (amended): with `end_time < current_time`, the Stepper's `run` raises
`ValueError("End time after start")` before mutating anything, while the
Scheduler's `run` raises nothing and returns with the state unchanged and no
parameter installation performed. -/
theorem C3_boundary_rejection {P D : Type} (dt e : ℚ) (adv : SimState P D → D)
    (s : SimState P D) (st : SchedState P D)
    (hs : e < s.current_time) (hst : e < st.simulation.current_time) :
    GenericSimulation.run dt adv e s
      = .error (.valueError "End time after start") ∧
    GenericEndgame.run dt adv e st = .ok (st, []) := by
  constructor
  · simp [GenericSimulation.run, hs]
  · exact schedLoop_stop dt adv e _ st (lt_asymm hst)

theorem C3_witness :
    GenericSimulation.run (1/2) advU (1/2) (⟨1, 0, ()⟩ : SimState ℕ Unit)
      = .error (.valueError "End time after start") ∧
    GenericEndgame.run (1/2) advU (1/2) stABC = .ok (stABC, []) :=
  C3_boundary_rejection (1/2) (1/2) advU ⟨1, 0, ()⟩ stABC (by decide) (by decide)

/-- C4: savepoint transparency.  The checkpoint persists exactly the
simulation state, the regime timeline and `next_params_index`, and `restore`
reads them back without re-derivation, so restoring a saved Scheduler yields
the very same state and any subsequent `run(end_time)` (with `end_time` at or
after the checkpoint's `current_time`) produces the identical result —
identical final state and identical installation history — as continuing the
original. -/
theorem C4_roundtrip {P D : Type} (dt e : ℚ) (adv : SimState P D → D)
    (st : SchedState P D) (h : st.simulation.current_time ≤ e) :
    GenericEndgame.restore (GenericEndgame.save st) = st ∧
    GenericEndgame.run dt adv e (GenericEndgame.restore (GenericEndgame.save st))
      = GenericEndgame.run dt adv e st :=
  ⟨rfl, rfl⟩

theorem C4_witness :
    GenericEndgame.restore (GenericEndgame.save stABC) = stABC ∧
    GenericEndgame.run (1/2) advU 10
        (GenericEndgame.restore (GenericEndgame.save stABC))
      = GenericEndgame.run (1/2) advU 10 stABC :=
  C4_roundtrip (1/2) 10 advU stABC (by decide)

/-- C5: counterexample to the claim as stated.  With `delta_time = 1`,
`current_time = 0`, `mid_time = 0` and `end_time = 1/2` (so `current_time ≤
mid_time ≤ end_time`): the single call `run(1/2)` succeeds (ending at
`current_time = 1`), but the split `run(0)` followed by `run(1/2)` fails —
`run(0)` overshoots to `current_time = 1 > 1/2`, so the second call raises
`ValueError`.  The split is therefore not equivalent to the single call. -/
theorem C5_counterexample :
    GenericSimulation.run 1 advU (1/2) (⟨0, 0, ()⟩ : SimState ℕ Unit)
      = .ok (⟨1, 0, ()⟩, [⟨1, 0, ()⟩]) ∧
    GenericSimulation.run 1 advU 0 (⟨0, 0, ()⟩ : SimState ℕ Unit)
      = .ok (⟨1, 0, ()⟩, [⟨1, 0, ()⟩]) ∧
    GenericSimulation.run 1 advU (1/2) (⟨1, 0, ()⟩ : SimState ℕ Unit)
      = .error (.valueError "End time after start") :=
  ⟨by decide, by decide, by decide⟩

/-- C5 (amended): `run(mid_time)` followed by `run(end_time)` equals the
single call `run(end_time)` — same final state and the concatenation of the
two advance traces — *provided* the state left by `run(mid_time)` has not
overshot past `end_time` (its `current_time` is still at most `end_time`);
without that proviso the second call raises (see the counterexample). -/
theorem C5_determinism {P D : Type} (dt m e : ℚ) (adv : SimState P D → D)
    (s s₁ : SimState P D) (tr₁ : List (SimState P D))
    (hdt : 0 < dt) (hm : s.current_time ≤ m) (hme : m ≤ e)
    (hrun : GenericSimulation.run dt adv m s = .ok (s₁, tr₁))
    (hno : s₁.current_time ≤ e) :
    GenericSimulation.run dt adv e s
      = (GenericSimulation.run dt adv e s₁).map (fun r => (r.1, tr₁ ++ r.2)) := by
  have hrm : GenericSimulation.run dt adv m s = .ok (runWhole dt adv m s) :=
    run_ok_of_le dt adv m s hdt (not_lt.mpr hm)
  rw [hrm] at hrun
  injection hrun with hrun
  have hs₁ : (runWhole dt adv m s).1 = s₁ := by rw [hrun]
  have htr : (runWhole dt adv m s).2 = tr₁ := by rw [hrun]
  have hre : GenericSimulation.run dt adv e s = .ok (runWhole dt adv e s) :=
    run_ok_of_le dt adv e s hdt (not_lt.mpr (le_trans hm hme))
  have hre₁ : GenericSimulation.run dt adv e s₁ = .ok (runWhole dt adv e s₁) :=
    run_ok_of_le dt adv e s₁ hdt (not_lt.mpr hno)
  have hconcat := runWhole_concat dt adv m e hdt hme
    (fuelFor dt s.current_time m) s (fuelFor_spec dt s.current_time m hdt)
    (by rw [hs₁]; exact hno)
  rw [hre, hre₁]
  show Except.ok (runWhole dt adv e s)
    = Except.ok ((runWhole dt adv e s₁).1, tr₁ ++ (runWhole dt adv e s₁).2)
  rw [hconcat, hs₁, htr]

theorem C5_witness :
    GenericSimulation.run (1/2) advU 2 (⟨0, 0, ()⟩ : SimState ℕ Unit)
      = (GenericSimulation.run (1/2) advU 2 (⟨3/2, 0, ()⟩ : SimState ℕ Unit)).map
          (fun r => (r.1, [⟨1/2, 0, ()⟩, ⟨1, 0, ()⟩, ⟨3/2, 0, ()⟩] ++ r.2)) :=
  C5_determinism (1/2) 1 2 advU ⟨0, 0, ()⟩ ⟨3/2, 0, ()⟩
    [⟨1/2, 0, ()⟩, ⟨1, 0, ()⟩, ⟨3/2, 0, ()⟩]
    (by decide) (by decide) (by decide) (by decide) (by decide)

/-- C6: counterexample to the claim as stated.  From `current_time = 0` with
`delta_time = 1` and `end_time = 2`, the loop condition `current_time <=
end_time` also executes the step that starts exactly at `end_time`, so the
run ends at `current_time = 3` and the overshoot `3 - 2 = 1` equals one full
`delta_time`: it is not strictly less than `delta_time`. -/
theorem C6_counterexample :
    GenericSimulation.run 1 advU 2 (⟨0, 0, ()⟩ : SimState ℕ Unit)
      = .ok (⟨3, 0, ()⟩, [⟨1, 0, ()⟩, ⟨2, 0, ()⟩, ⟨3, 0, ()⟩]) ∧
    ¬ ((3 : ℚ) - 2 < 1) :=
  ⟨by decide, by decide⟩

/-- C6 (amended): for `delta_time > 0` and `end_time ≥ current_time`, `run`
succeeds; a step is taken for every grid time at most `end_time`, each step
first advancing `current_time` by `delta_time` and then invoking the advance
operation on the updated state (the `i`-th invocation sees `current_time =
start + (i+1) * delta_time`, parameters untouched); on return `current_time`
exceeds `end_time` by a positive amount of *at most* one `delta_time`
(equality occurs when the run lands exactly on `end_time`, see the
counterexample). -/
theorem C6_run_stepping {P D : Type} (dt e : ℚ) (adv : SimState P D → D)
    (s : SimState P D) (hdt : 0 < dt) (he : s.current_time ≤ e) :
    GenericSimulation.run dt adv e s = .ok (runWhole dt adv e s) ∧
    e < (runWhole dt adv e s).1.current_time ∧
    (runWhole dt adv e s).1.current_time ≤ e + dt ∧
    (runWhole dt adv e s).1.current_time
      = s.current_time + ((runWhole dt adv e s).2.length : ℚ) * dt ∧
    ∀ (i : ℕ) (v : SimState P D), (runWhole dt adv e s).2.get? i = some v →
      v.current_time = s.current_time + ((i : ℚ) + 1) * dt ∧
      v.params = s.params := by
  have hfin := runWhole_final dt adv e hdt (fuelFor dt s.current_time e) s
    (fuelFor_spec dt s.current_time e hdt) (by linarith)
  exact ⟨run_ok_of_le dt adv e s hdt (not_lt.mpr he), hfin.2.1, hfin.2.2.1,
    hfin.1, runWhole_trace dt adv e hdt (fuelFor dt s.current_time e) s
      (fuelFor_spec dt s.current_time e hdt)⟩

theorem C6_witness :
    GenericSimulation.run (1/2) advU 1 (⟨0, 0, ()⟩ : SimState ℕ Unit)
      = .ok (runWhole (1/2) advU 1 ⟨0, 0, ()⟩) ∧
    (1 : ℚ) < (runWhole (1/2) advU 1 (⟨0, 0, ()⟩ : SimState ℕ Unit)).1.current_time ∧
    (runWhole (1/2) advU 1 (⟨0, 0, ()⟩ : SimState ℕ Unit)).1.current_time ≤ 1 + 1/2 ∧
    (runWhole (1/2) advU 1 (⟨0, 0, ()⟩ : SimState ℕ Unit)).1.current_time
      = 0 + ((runWhole (1/2) advU 1 (⟨0, 0, ()⟩ : SimState ℕ Unit)).2.length : ℚ) * (1/2) := by
  have h := C6_run_stepping (1/2) 1 advU (⟨0, 0, ()⟩ : SimState ℕ Unit)
    (by decide) (by decide)
  exact ⟨h.1, h.2.1, h.2.2.1, h.2.2.2.1⟩

/-- C7: from `current_time = 0` with `delta_time = 1/2`,
`iter_run(end_time = 10, sampling_years = [0.1, 1, 5])` yields exactly three
samples, one per requested year, at `current_time = 0, 1, 5` — strictly
ascending in the requested years, each within one `delta_time` of its target
(`|0 - 0.1| = 1/10 < 1/2`, `|1 - 1| = 0`, `|5 - 5| = 0`), each year consumed
at most once; the run ends at `current_time = 21/2` after 21 advance
invocations. -/
theorem C7_sampling_years :
    (GenericSimulation.iter_run (1/2) advB false 10 none (some [1/10, 1, 5])
        (⟨0, 0, ()⟩ : SimState ℕ Unit)).map
      (fun r => (r.1.map SimState.current_time, r.2.1.current_time, r.2.2.length))
      = .ok ([0, 1, 5], 21/2, 21) ∧
    ratAbs (0 - 1/10) < 1/2 ∧ ratAbs (1 - 1) < 1/2 ∧ ratAbs (5 - 5) < 1/2 :=
  ⟨by decide, by decide, by decide, by decide⟩

/-- C8: counterexample to the claim as stated.  Supplying *both* a
`sampling_interval` (`1.0`) and a `sampling_years` argument (the empty list)
raises no usage error at all: the guard `sampling_interval and
sampling_years` uses Python truthiness, and an empty list is falsy, so the
call proceeds and runs in interval mode (two samples, at `current_time = 0`
and `1`). -/
theorem C8_counterexample :
    GenericSimulation.iter_run (1/2) advB false 1 (some 1) (some [])
        (⟨0, 0, ()⟩ : SimState ℕ Unit)
      = .ok ([⟨0, 0, ()⟩, ⟨1, 0, ()⟩], ⟨3/2, 0, ()⟩,
          [⟨1/2, 0, ()⟩, ⟨1, 0, ()⟩, ⟨3/2, 0, ()⟩]) := by decide

/-- C8 (amended): the sampling-mode usage error is raised exactly when both
arguments are *truthy* — `sampling_interval` not `None` and nonzero,
`sampling_years` not `None` and nonempty — and `end_time` is not before
`current_time` (the end-time check precedes it); the error is returned before
any time step executes and without mutating state.  A zero interval or an
empty years list is treated as absent and raises no usage error (see the
counterexample). -/
theorem C8_both_sampling_modes {P D : Type} (dt e : ℚ)
    (adv : Bool → SimState P D → D) (debug : Bool) (si : Option ℚ)
    (sy : Option (List ℚ)) (s : SimState P D)
    (hi : truthyInterval si = true) (hy : truthyYears sy = true)
    (he : s.current_time ≤ e) :
    GenericSimulation.iter_run dt adv debug e si sy s
      = .error (.valueError
          "You must provide sampling_interval, sampling_years or neither") := by
  unfold GenericSimulation.iter_run
  rw [if_neg (not_lt.mpr he), if_pos (by rw [hi, hy]; rfl)]

theorem C8_witness :
    GenericSimulation.iter_run (1/2) advB false 1 (some 1) (some [2])
        (⟨0, 0, ()⟩ : SimState ℕ Unit)
      = .error (.valueError
          "You must provide sampling_interval, sampling_years or neither") :=
  C8_both_sampling_modes (1/2) 1 advB false (some 1) (some [2]) ⟨0, 0, ()⟩
    (by decide) (by decide) (by decide)

/-- C9: the Scheduler's `run(end_time)` terminates whenever `delta_time > 0`:
its loop settles within `schedFuel st` iterations — every fuel at least that
bound computes the same result, because each iteration either consumes a
regime (incrementing `next_params_index`) or runs the final segment past
`end_time` — and on any successful return the final `current_time` is at
least `end_time` (the loop guard `current_time < end_time` has failed). -/
theorem C9_termination {P D : Type} (dt e : ℚ) (adv : SimState P D → D)
    (st : SchedState P D) (hdt : 0 < dt) :
    (∀ n, schedFuel st ≤ n →
      schedLoop dt adv e n st = GenericEndgame.run dt adv e st) ∧
    (∀ (stF : SchedState P D) (l : List (ℚ × P)),
      GenericEndgame.run dt adv e st = .ok (stF, l) →
      e ≤ stF.simulation.current_time) := by
  constructor
  · intro n hn
    exact schedLoop_congr dt adv e hdt n st (schedFuel st) hn le_rfl
  · intro stF l h
    exact schedLoop_final dt adv e hdt (schedFuel st) st stF l le_rfl h

theorem C9_witness :
    schedLoop (1/2) advU 10 5 stABC = GenericEndgame.run (1/2) advU 10 stABC ∧
    (10 : ℚ) ≤ 21/2 :=
  ⟨(C9_termination (1/2) 10 advU stABC (by decide)).1 5 (by decide),
   (C9_termination (1/2) 10 advU stABC (by decide)).2
     ⟨⟨21/2, 2, ()⟩, psetABC, 3⟩ [(1, 1), (5/2, 2)] (by decide)⟩

/-- C10: `iter_run` with neither sampling argument (or with an empty
`sampling_years` list) raises no usage error: it returns successfully,
yields zero samples, ends at the same final `current_time` as `run(end_time)`
and invokes the advance operation the same number of times (the advance
operations themselves may differ — `iter_run` passes the debug flag, `run`
does not — which is why they are quantified separately here). -/
theorem C10_no_sampling {P D : Type} (dt e : ℚ)
    (advI : Bool → SimState P D → D) (advR : SimState P D → D) (debug : Bool)
    (sy : Option (List ℚ)) (s : SimState P D)
    (hdt : 0 < dt) (he : s.current_time ≤ e)
    (hsy : sy = none ∨ sy = some []) :
    GenericSimulation.run dt advR e s = .ok (runWhole dt advR e s) ∧
    GenericSimulation.iter_run dt advI debug e none sy s
      = .ok (iterLoop dt advI debug e none []
          (fuelFor dt s.current_time e) 0 s) ∧
    (iterLoop dt advI debug e none [] (fuelFor dt s.current_time e) 0 s).1
      = [] ∧
    (iterLoop dt advI debug e none []
        (fuelFor dt s.current_time e) 0 s).2.1.current_time
      = (runWhole dt advR e s).1.current_time ∧
    (iterLoop dt advI debug e none []
        (fuelFor dt s.current_time e) 0 s).2.2.length
      = (runWhole dt advR e s).2.length := by
  have key := iterLoop_no_sampling dt advI advR debug e
    (fuelFor dt s.current_time e) 0 s s rfl
  refine ⟨run_ok_of_le dt advR e s hdt (not_lt.mpr he), ?_, key.1, key.2.1,
    key.2.2⟩
  unfold GenericSimulation.iter_run
  rw [if_neg (not_lt.mpr he)]
  rw [if_neg (show ¬ (truthyInterval none && truthyYears sy) = true by
    simp [truthyInterval])]
  rw [if_neg (show ¬ (none : Option ℚ) = some 0 by simp)]
  rw [if_neg (not_le.mpr hdt)]
  rcases hsy with rfl | rfl
  · rfl
  · rfl

theorem C10_witness :
    GenericSimulation.iter_run (1/2) advB false 2 none none
        (⟨0, 0, ()⟩ : SimState ℕ Unit)
      = .ok (iterLoop (1/2) advB false 2 none [] (fuelFor (1/2) 0 2) 0
          ⟨0, 0, ()⟩) ∧
    (iterLoop (1/2) advB false 2 none [] (fuelFor (1/2) 0 2) 0
        (⟨0, 0, ()⟩ : SimState ℕ Unit)).1 = [] := by
  have h := C10_no_sampling (1/2) 2 advB advU false none
    (⟨0, 0, ()⟩ : SimState ℕ Unit) (by decide) (by decide) (Or.inl rfl)
  exact ⟨h.2.1, h.2.2.1⟩
